import Mathlib

/-!
Verification development for the Trend Hunter Pro server (`src/server.py`).

The Python source is shallowly embedded below: pure helpers become Lean
functions, SQLite tables become Lean lists of records, wall-clock reads and
network fetches become explicit oracle parameters, and machine integers and
floats become `Int` / `ℚ`.  Definitions keep the source's names where Lean
allows it.
-/

namespace TrendHunter

/-! ## Text normalization (`normalize_text`, src/server.py:138-139)

`re.sub(r"\s+", " ", text).strip().lower()`: collapse whitespace runs to a
single space, strip, lowercase (ASCII whitespace set). -/

def isPySpace (c : Char) : Bool :=
  c = ' ' || c = '\t' || c = '\n' || c = '\r' || c = '\x0b' || c = '\x0c'

/-- Collapse every run of whitespace characters into a single `' '`
(the `re.sub(r"\s+", " ", text)` step), via a left fold whose state is
(reversed output so far, last char was whitespace). -/
def collapseWS (l : List Char) : List Char :=
  (l.foldl
    (fun (acc : List Char × Bool) c =>
      if isPySpace c then (if acc.2 then acc else (' ' :: acc.1, true))
      else (c :: acc.1, false))
    ([], false)).1.reverse

/-- `str.strip()` restricted to `' '` — after `collapseWS` the only whitespace
left is single `' '` characters. -/
def stripSpaces (l : List Char) : List Char :=
  ((l.dropWhile (· = ' ')).reverse.dropWhile (· = ' ')).reverse

def normalize_text (s : String) : String :=
  String.mk (((stripSpaces (collapseWS s.data))).map Char.toLower)

/-! ## Substring and split helpers (Python `in` on str, `str.split(" ")`) -/

/-- `needle` is a prefix of `hay` (char-for-char). -/
def startsWithL : List Char → List Char → Bool
  | [], _ => true
  | _ :: _, [] => false
  | a :: as, b :: bs => a = b && startsWithL as bs

/-- Python `needle in hay` on strings: `needle` occurs contiguously in `hay`
(the empty needle occurs in everything). -/
def containsL (needle : List Char) : List Char → Bool
  | [] => needle.isEmpty
  | c :: t => startsWithL needle (c :: t) || containsL needle t

/-- Python `s.split(" ")`: split on every single space, keeping empty parts. -/
def splitSpace : List Char → List (List Char)
  | [] => [[]]
  | c :: t =>
    let r := splitSpace t
    if c = ' ' then [] :: r
    else
      match r with
      | [] => [[c]]
      | h :: rest => (c :: h) :: rest

/-! ## Numeric helpers -/

/-- Python `int(x)` on a float/rational: truncation toward zero. -/
def pyTrunc (q : ℚ) : Int :=
  if 0 ≤ q then ⌊q⌋ else ⌈q⌉

/-- Python `round(x, 2)` (round half to even at two decimal places),
modelled over exact rationals. -/
def roundHalfEven (q : ℚ) : Int :=
  let f := ⌊q⌋
  let frac := q - (f : ℚ)
  if frac < 1/2 then f
  else if (1/2 : ℚ) < frac then f + 1
  else if f % 2 = 0 then f else f + 1

def round2 (q : ℚ) : ℚ :=
  ((roundHalfEven (q * 100) : Int) : ℚ) / 100

/-! ## Scoring engine (`calc_trend_score`, src/server.py:488-524)

Wall-clock reads and date parsing are abstracted into the two rational
parameters `nowSec` (epoch seconds of `datetime.now`) and `pubSec` (epoch
seconds of `parse_pub_date(published_at)`). -/

/-- One iteration of the trend-match loop body for a phrase `t`:
the phrase is skipped when empty (`if not t: continue`), otherwise it hits
when it occurs whole in the title or some space-delimited word of it longer
than 4 characters occurs in the title. -/
def trendHitB (titleNorm : String) (t : String) : Bool :=
  !t.isEmpty &&
    (containsL t.data titleNorm.data ||
      (splitSpace t.data).any
        (fun p => decide (4 < p.length) && containsL p titleNorm.data))

def calc_trend_score (nowSec pubSec : ℚ) (title keyword : String)
    (trends : List String) (keyword_density : Int) : Int × Int :=
  let age_hours : ℚ := max 0 ((nowSec - pubSec) / 3600)
  let title_norm := normalize_text title
  let keyword_norm := normalize_text keyword
  let recency : Int := max 0 (pyTrunc (45 - age_hours * (7/2)))
  let score1 : Int := 0 + recency
  let score2 : Int :=
    if !keyword_norm.isEmpty && containsL keyword_norm.data title_norm.data
    then score1 + 20 else score1
  let trend_hit : Bool := trends.any (trendHitB title_norm)
  let score3 : Int := if trend_hit then score2 + 25 else score2
  let signal : Int := if trend_hit then 1 else 0
  let score4 : Int := score3 + min 20 (keyword_density * 2)
  (max 0 (min 100 score4), signal)

/-! ## Claim-side scoring definitions (C1)

These follow the words of the specification sentence being checked, to be
compared with `calc_trend_score` above.  The spec's keyword bonus has no
nonemptiness guard, and its phrase-match predicate has no skip-empty rule. -/

/-- Spec wording: "keywordBonus = 20 exactly when the normalized keyword is a
substring of the normalized title". -/
def claimKeywordBonus (title keyword : String) : Int :=
  if containsL (normalize_text keyword).data (normalize_text title).data
  then 20 else 0

/-- Spec wording: a phrase matches when "the whole normalized phrase is a
substring of the normalized title, or some space-delimited word of the phrase
longer than 4 characters is a substring of it". -/
def claimPhraseMatchB (titleNorm : String) (t : String) : Bool :=
  containsL t.data titleNorm.data ||
    (splitSpace t.data).any
      (fun p => decide (4 < p.length) && containsL p titleNorm.data)

def claimTrendBonus (title : String) (trends : List String) : Int :=
  if trends.any (claimPhraseMatchB (normalize_text title)) then 25 else 0

def claimSignal (title : String) (trends : List String) : Int :=
  if trends.any (claimPhraseMatchB (normalize_text title)) then 1 else 0

def claimRecency (nowSec pubSec : ℚ) : Int :=
  max 0 ⌊45 - (max 0 ((nowSec - pubSec) / 3600)) * (7/2)⌋

def claimDensityBonus (d : Int) : Int := min 20 (d * 2)

def claimScore (nowSec pubSec : ℚ) (title keyword : String)
    (trends : List String) (d : Int) : Int :=
  max 0 (min 100
    (claimRecency nowSec pubSec + claimKeywordBonus title keyword +
      claimTrendBonus title trends + claimDensityBonus d))

/-- Amended keyword bonus: as the claim, plus the code's requirement that the
normalized keyword be nonempty. -/
def amendedKeywordBonus (title keyword : String) : Int :=
  if !(normalize_text keyword).isEmpty &&
      containsL (normalize_text keyword).data (normalize_text title).data
  then 20 else 0

/-- Amended phrase match: as the claim, plus the code's skip of empty
phrases. -/
def amendedPhraseMatchB (titleNorm : String) (t : String) : Bool :=
  !t.isEmpty && claimPhraseMatchB titleNorm t

def amendedTrendBonus (title : String) (trends : List String) : Int :=
  if trends.any (amendedPhraseMatchB (normalize_text title)) then 25 else 0

def amendedSignal (title : String) (trends : List String) : Int :=
  if trends.any (amendedPhraseMatchB (normalize_text title)) then 1 else 0

def amendedScore (nowSec pubSec : ℚ) (title keyword : String)
    (trends : List String) (d : Int) : Int :=
  max 0 (min 100
    (claimRecency nowSec pubSec + amendedKeywordBonus title keyword +
      amendedTrendBonus title trends + claimDensityBonus d))

/-! ## Association-list model of Python dicts (insertion-ordered) -/

def assocGet {α : Type} : List (String × α) → String → Option α
  | [], _ => none
  | (k', v) :: t, k => if k' = k then some v else assocGet t k

/-- `d[k] = v`: overwrite the existing binding in place, else append. -/
def assocSet {α : Type} : List (String × α) → String → α → List (String × α)
  | [], k, v => [(k, v)]
  | (k', v') :: t, k, v =>
    if k' = k then (k, v) :: t else (k', v') :: assocSet t k v

/-- `d.update(kvs)` for a dict given as a key/value list. -/
def dictUpdate {α : Type} (m : List (String × α)) (kvs : List (String × α)) :
    List (String × α) :=
  kvs.foldl (fun acc kv => assocSet acc kv.1 kv.2) m

/-- `d.setdefault(k, v)`. -/
def dictSetdefault {α : Type} (m : List (String × α)) (k : String) (v : α) :
    List (String × α) :=
  if (assocGet m k).isSome then m else m ++ [(k, v)]

/-! ## `chunked` (src/server.py:195-196)

`[items[i:i + size] for i in range(0, len(items), size)]`, written with an
explicit fuel (one unit per produced batch suffices, `items.length` is more
than enough) to keep the recursion structural. -/

def chunkedFuel {α : Type} : ℕ → List α → ℕ → List (List α)
  | _, _, 0 => []
  | 0, _, _ + 1 => []
  | _ + 1, [], _ + 1 => []
  | fuel + 1, x :: xs, n + 1 =>
    (x :: xs).take (n + 1) :: chunkedFuel fuel ((x :: xs).drop (n + 1)) (n + 1)

def chunked {α : Type} (l : List α) (size : ℕ) : List (List α) :=
  chunkedFuel l.length l size

/-! ## Related-queries cache (`RELATED_CACHE`,
`cached_related_queries_for_keyword`, src/server.py:39, 341-352)

The upstream fetch (`fetch_related_queries_for_keyword`) is an oracle
`fetch : Unit → α`; the returned `Bool` records whether the upstream call
was issued. -/

def relatedKey (keyword geo timeframe : String) : String :=
  normalize_text keyword ++ "|" ++ geo ++ "|" ++ timeframe

def cached_related_queries_for_keyword {α : Type}
    (cache : List (String × ℚ × α)) (fetch : Unit → α)
    (keyword geo timeframe : String) (ttl_seconds : ℚ) (force_refresh : Bool)
    (now_ts : ℚ) : List (String × ℚ × α) × α × Bool :=
  let k := relatedKey keyword geo timeframe
  match assocGet cache k with
  | some item =>
    if force_refresh = false ∧ now_ts - item.1 < ttl_seconds then
      (cache, item.2, false)
    else
      let data := fetch ()
      (assocSet cache k (now_ts, data), data, true)
  | none =>
    let data := fetch ()
    (assocSet cache k (now_ts, data), data, true)

/-! ## Interest-index cache (`TRENDS_CACHE`, `cached_last_hour_trends`,
src/server.py:34-39, 475-485)

The module-level cache is a single mutable triple; it is modelled as a
one-entry structure. -/

structure TrendsCacheState (α : Type) where
  ts : ℚ
  sig : String
  data : α

/-- `"|".join(sorted(normalize_text(k) for k in keywords))`.  Python's
`sorted` is modelled by `List.insertionSort (· ≤ ·)`; over a linear order the
sorted permutation is unique, so any correct sort is extensionally equal. -/
def trendsSig (keywords : List String) : String :=
  String.intercalate "|"
    (List.insertionSort (· ≤ ·) (keywords.map normalize_text))

def cached_last_hour_trends {α : Type} (c : TrendsCacheState α)
    (build : Unit → α) (keywords : List String) (ttl_seconds : ℚ)
    (force_refresh : Bool) (now_ts : ℚ) : TrendsCacheState α × α × Bool :=
  let sig := trendsSig keywords
  if force_refresh = false ∧ c.sig = sig ∧ now_ts - c.ts < ttl_seconds then
    (c, c.data, false)
  else
    let data := build ()
    (⟨now_ts, sig, data⟩, data, true)

/-! ## Last-hour interest series (`build_last_hour_trends`,
src/server.py:425-472)

`fetch_last_hour_interest_for_batch` is an oracle
`fetch : List String → Except Unit (List (String × List Int))` — `.error ()`
models the raised exception, `.ok kvs` the returned per-keyword dict. -/

structure TrendItem where
  keyword : String
  latest_index : Int
  avg_60m : ℚ
  avg_20m : ℚ
  delta_20m : ℚ
  points : List Int
deriving DecidableEq

def listMean (l : List Int) : ℚ :=
  (l.map (fun i => (i : ℚ))).sum / (l.length : ℚ)

/-- Per-keyword item construction (the body of the `for kw in keywords`
loop, src/server.py:439-469). -/
def mkItem (kw : String) (series : List Int) : TrendItem :=
  if series = [] then ⟨kw, 0, 0, 0, 0, []⟩
  else
    let latest : Int := (series.getLast?).getD 0
    let avg_60 := listMean series
    let tail_20 := if 20 ≤ series.length then series.drop (series.length - 20) else series
    let head_20 := if 20 ≤ series.length then series.take 20 else series
    let avg_20 := listMean tail_20
    let prev_20 := listMean head_20
    let delta_20 := avg_20 - prev_20
    ⟨kw, latest, round2 avg_60, round2 avg_20, round2 delta_20, series⟩

/-- Accumulation of `collected` over the batches (src/server.py:429-436),
one loop iteration per batch: a successful batch fetch `dict.update`s the
results, a failed one `setdefault`s each of its keywords to the empty
series. -/
def collectFold (fetch : List String → Except Unit (List (String × List Int))) :
    List (List String) → List (String × List Int) → List (String × List Int)
  | [], acc => acc
  | b :: rest, acc =>
    collectFold fetch rest
      (match fetch b with
        | .ok vals => dictUpdate acc vals
        | .error _ => b.foldl (fun a kw => dictSetdefault a kw []) acc)

def collectBatches (fetch : List String → Except Unit (List (String × List Int)))
    (batches : List (List String)) : List (String × List Int) :=
  collectFold fetch batches []

/-- Descending lexicographic order used by
`items.sort(key=lambda x: (x["latest_index"], x["avg_20m"]), reverse=True)`:
`a` may precede `b` when `b`'s key is lexicographically ≤ `a`'s. -/
def itemDescLe (a b : TrendItem) : Prop :=
  b.latest_index < a.latest_index ∨
    (b.latest_index = a.latest_index ∧ b.avg_20m ≤ a.avg_20m)

instance : DecidableRel itemDescLe := fun a b => by
  unfold itemDescLe
  infer_instance

def buildItems (fetch : List String → Except Unit (List (String × List Int)))
    (keywords : List String) : List TrendItem :=
  let collected := collectBatches fetch (chunked keywords 8)
  keywords.map (fun kw => mkItem kw ((assocGet collected kw).getD []))

def build_last_hour_trends
    (fetch : List String → Except Unit (List (String × List Int)))
    (keywords : List String) : List TrendItem :=
  if keywords = [] then []
  else List.insertionSort itemDescLe (buildItems fetch keywords)

/-! ## News storage and the scan cycle (`scan_now`, src/server.py:527-647)

The `news` table is a list of records; `link` carries a UNIQUE constraint, so
the orchestrator's INSERT raises `IntegrityError` exactly when a stored
record already has the candidate's link, and then falls back to the UPDATE
(src/server.py:586-618). -/

structure NewsItem where
  title : String
  link : String
  source : Option String
  published_at : Option String
  keyword : String
deriving DecidableEq

structure NewsRecord where
  title : String
  link : String
  source : Option String
  published_at : Option String
  keyword : String
  trend_score : Int
  trend_signal : Int
  is_new : Int
  saved : Int
  discovered_at : String
deriving DecidableEq

/-- The UPDATE taken on a duplicate link (src/server.py:607-618):
`trend_score`, `trend_signal`, `keyword` are overwritten;
`source = COALESCE(source, new)` keeps the stored value when present;
`published_at = COALESCE(new, published_at)` takes the NEW value when
present. -/
def refreshNews (it : NewsItem) (score signal : Int) (r : NewsRecord) :
    NewsRecord :=
  { r with
      trend_score := score
      trend_signal := signal
      keyword := it.keyword
      source := r.source.orElse (fun _ => it.source)
      published_at := it.published_at.orElse (fun _ => r.published_at) }

/-- INSERT-then-UPDATE-on-conflict for one gathered candidate
(src/server.py:586-618).  Returns the new table and whether a row was
inserted (`new_articles += 1`). -/
def upsertNews (db : List NewsRecord) (it : NewsItem) (score signal : Int)
    (discovered : String) : List NewsRecord × Bool :=
  if db.any (fun r => decide (r.link = it.link)) then
    (db.map (fun r => if r.link = it.link then refreshNews it score signal r else r),
     false)
  else
    (db ++ [⟨it.title, it.link, it.source, it.published_at, it.keyword,
            score, signal, 1, 0, discovered⟩],
     true)

structure Audit where
  started_at : String
  finished_at : Option String
  new_articles : Int
  total_articles : Int
  success : Int
  error : Option String
deriving DecidableEq

structure SettingsState where
  auto_scan : Bool
  interval_minutes : Int
  last_scan_time : String
deriving DecidableEq

structure AppState where
  keywords : List String
  news : List NewsRecord
  scans : List Audit
  settings : SettingsState
  lockHeld : Bool
  lastAuto : ℚ
deriving DecidableEq

structure ScanResult where
  success : Bool
  error : Option String := none
  newArticles : Option Int := none
  totalProcessed : Option Int := none
  totalArticles : Option Int := none
deriving DecidableEq

/-- Network requests issued by a scan cycle, recorded as a trace. -/
inductive NetCall where
  | trendsFeed : NetCall
  | newsFeed (kw : String) : NetCall
deriving DecidableEq

/-- Environment of one `scan_now` run: the `now_iso()` / `time.time()`
reads, `parse_pub_date`, the two fetches (`.error ()` = raised exception),
and an optional unexpected exception raised just before processing the
`n`-th gathered candidate (modelling the `except Exception` path,
src/server.py:637-643). -/
structure ScanOracle where
  startIso : String
  finishIso : String
  discIso : String
  nowSec : ℚ
  parsePub : Option String → ℚ
  trendsFetch : Except Unit (List String)
  newsFetch : String → Except Unit (List NewsItem)
  raiseAt : Option (Nat × String)

def raiseHit (raiseAt : Option (Nat × String)) (i : Nat) : Option String :=
  match raiseAt with
  | some (j, msg) => if i = j then some msg else none
  | none => none

/-- The candidate-processing loop (src/server.py:576-618), with the running
index threaded through so the unexpected-exception oracle can fire at a
definite point; on a raise the partially updated table is kept (the pending
writes are committed by the `except` branch's `conn.commit()`). -/
def scanItems (scoreOf : NewsItem → Int × Int) (disc : String)
    (raiseAt : Option (Nat × String)) :
    Nat → List NewsRecord → Int → Int → List NewsItem →
    List NewsRecord × Int × Int × Option String
  | _, db, newC, tot, [] => (db, newC, tot, none)
  | i, db, newC, tot, it :: rest =>
    match raiseHit raiseAt i with
    | some msg => (db, newC, tot, some msg)
    | none =>
      let s := scoreOf it
      let up := upsertNews db it s.1 s.2 disc
      scanItems scoreOf disc raiseAt (i + 1) up.1
        (newC + if up.2 then 1 else 0) (tot + 1) rest

/-- The trend list, gathering, per-keyword density and scoring of one scan
body (src/server.py:555-584), followed by the candidate-processing loop:
everything between the keyword check and the audit close. -/
def scanProcess (keywords : List String) (news : List NewsRecord)
    (o : ScanOracle) : List NewsRecord × Int × Int × Option String :=
  let trends := match o.trendsFetch with | .ok t => t | .error _ => []
  let newsOf := fun kw =>
    match o.newsFetch kw with | .ok xs => xs | .error _ => []
  let gathered := (keywords.map newsOf).flatten
  let density := fun kw => ((newsOf kw).length : Int)
  let scoreOf := fun (it : NewsItem) =>
    calc_trend_score o.nowSec (o.parsePub it.published_at) it.title
      it.keyword trends (density it.keyword)
  scanItems scoreOf o.discIso o.raiseAt 0 news 0 0 gathered

/-- The scan orchestrator (src/server.py:527-647).  Returns the new state,
the user-facing result dict, and the trace of network calls issued. -/
def scan_now (st : AppState) (o : ScanOracle) :
    AppState × ScanResult × List NetCall :=
  if st.lockHeld then
    (st, { success := false, error := some "Tarama zaten devam ediyor." }, [])
  else
    let audit : Audit :=
      { started_at := o.startIso, finished_at := none, new_articles := 0,
        total_articles := 0, success := 1, error := none }
    let scanId := st.scans.length
    let st1 : AppState := { st with lockHeld := true, scans := st.scans ++ [audit] }
    if st1.keywords = [] then
      let closed : Audit :=
        { audit with finished_at := some o.finishIso, success := 0,
                     error := some "Anahtar kelime yok" }
      ({ st1 with scans := st1.scans.set scanId closed, lockHeld := false },
       { success := false, error := some "Lutfen once anahtar kelime ekleyin." },
       [])
    else
      let calls := NetCall.trendsFeed :: st1.keywords.map NetCall.newsFeed
      let res := scanProcess st1.keywords st1.news o
      match res.2.2.2 with
      | none =>
        let closed : Audit :=
          { audit with finished_at := some o.finishIso,
                       new_articles := res.2.1, total_articles := res.2.2.1,
                       success := 1 }
        ({ st1 with news := res.1, scans := st1.scans.set scanId closed,
                    lockHeld := false,
                    settings := { st1.settings with last_scan_time := o.finishIso },
                    lastAuto := o.nowSec },
         { success := true, newArticles := some res.2.1,
           totalProcessed := some res.2.2.1,
           totalArticles := some (res.1.length : Int) },
         calls)
      | some msg =>
        let closed : Audit :=
          { audit with finished_at := some o.finishIso, success := 0,
                       error := some msg }
        ({ st1 with news := res.1, scans := st1.scans.set scanId closed,
                    lockHeld := false },
         { success := false, error := some ("Tarama hatasi: " ++ msg) },
         calls)

/-! ## Auto-scan scheduler (`auto_scan_worker`, src/server.py:1002-1018) -/

def clampInterval (n : Int) : Int := max 2 (min n 180)

/-- One tick's environment: the `time.time()` read at the guard, whether the
settings reads raise (the swallowed exception of the `except` branch), and
the scan oracle used if the orchestrator is invoked. -/
structure TickInput where
  now : ℚ
  readFail : Bool
  oracle : ScanOracle

/-- One iteration of the worker loop.  Returns the new state and whether the
orchestrator was invoked this tick. -/
def auto_scan_tick (st : AppState) (inp : TickInput) : AppState × Bool :=
  if inp.readFail then (st, false)
  else
    let auto_on := st.settings.auto_scan
    let interval := clampInterval st.settings.interval_minutes
    if auto_on = true ∧
        (st.lastAuto = 0 ∨ (interval : ℚ) * 60 ≤ inp.now - st.lastAuto) then
      ((scan_now st inp.oracle).1, true)
    else (st, false)

/-- The perpetual loop, unrolled: the state after `n` ticks. -/
def auto_scan_worker (st0 : AppState) (inputs : Nat → TickInput) :
    Nat → AppState
  | 0 => st0
  | n + 1 => (auto_scan_tick (auto_scan_worker st0 inputs n) (inputs n)).1

/-- The scheduler's trigger condition on state `st` at time `now`. -/
def tickGuard (st : AppState) (now : ℚ) : Prop :=
  st.settings.auto_scan = true ∧
    (st.lastAuto = 0 ∨
      (clampInterval st.settings.interval_minutes : ℚ) * 60 ≤ now - st.lastAuto)

instance : ∀ st now, Decidable (tickGuard st now) := fun st now => by
  unfold tickGuard
  infer_instance

/-! ## Abstract single-flight machine (C3)

`threading.Lock.acquire(blocking=False)` is an atomic test-and-set; the
interleaving of concurrent scan attempts is modelled at that granularity:
`tryStart` either enters (lock free) or is rejected, `finish` is the
`finally` release (src/server.py:530-531, 644-647). -/

structure ScanSys where
  lockHeld : Bool
  inProgress : Nat
  audits : Nat
deriving DecidableEq

inductive ScanEv where
  | tryStart : ScanEv
  | finish : ScanEv

def scanSysStep (s : ScanSys) : ScanEv → ScanSys
  | .tryStart =>
    if s.lockHeld then s
    else ⟨true, s.inProgress + 1, s.audits + 1⟩
  | .finish =>
    if s.lockHeld then ⟨false, s.inProgress - 1, s.audits⟩ else s

def scanSysRun (evs : List ScanEv) : ScanSys :=
  evs.foldl scanSysStep ⟨false, 0, 0⟩

/-! ## Order instances for the result sort -/

instance : IsTotal TrendItem itemDescLe := by
  constructor
  intro a b
  unfold itemDescLe
  rcases lt_trichotomy a.latest_index b.latest_index with h | h | h
  · right; left; exact h
  · rcases le_total a.avg_20m b.avg_20m with h2 | h2
    · right; right; exact ⟨h, h2⟩
    · left; right; exact ⟨h.symm, h2⟩
  · left; left; exact h

instance : IsTrans TrendItem itemDescLe := by
  constructor
  intro a b c hab hbc
  unfold itemDescLe at *
  rcases hab with h1 | ⟨h1, h1'⟩ <;> rcases hbc with h2 | ⟨h2, h2'⟩
  · left; exact lt_trans h2 h1
  · left; rw [h2]; exact h1
  · left; rw [← h1]; exact h2
  · right; exact ⟨h2.trans h1, le_trans h2' h1'⟩

/-! ## Concrete fixtures used by counterexamples and witnesses -/

def cexStoredRecord : NewsRecord :=
  { title := "Old title", link := "https://example.com/a",
    source := some "Old Source",
    published_at := some "2024-01-01T00:00:00+00:00",
    keyword := "oldkw", trend_score := 10, trend_signal := 0,
    is_new := 0, saved := 0,
    discovered_at := "2024-01-02T00:00:00+00:00" }

def cexNewItem : NewsItem :=
  { title := "New title", link := "https://example.com/a",
    source := some "New Source",
    published_at := some "2025-06-01T00:00:00+00:00",
    keyword := "newkw" }

def oracle0 : ScanOracle :=
  { startIso := "2025-06-01T00:00:00+00:00",
    finishIso := "2025-06-01T00:00:05+00:00",
    discIso := "2025-06-01T00:00:03+00:00",
    nowSec := 1000, parsePub := fun _ => 0,
    trendsFetch := .ok [], newsFetch := fun _ => .ok [],
    raiseAt := none }

def settings0 : SettingsState :=
  { auto_scan := true, interval_minutes := 10, last_scan_time := "" }

def lockedState : AppState :=
  { keywords := ["ai"], news := [], scans := [], settings := settings0,
    lockHeld := true, lastAuto := 0 }

def emptyKwState : AppState :=
  { keywords := [], news := [], scans := [], settings := settings0,
    lockHeld := false, lastAuto := 0 }

def tickInput0 : TickInput :=
  { now := 100000, readFail := false, oracle := oracle0 }

def tickInputFail : TickInput :=
  { now := 100000, readFail := true, oracle := oracle0 }

def c5Keywords : List String :=
  ["a1", "a2", "a3", "a4", "a5", "a6", "a7", "a8", "b1", "b2"]

def c5B : List String := ["a1", "a2", "a3", "a4", "a5", "a6", "a7", "a8"]

def c5Vals : String → List Int := fun _ => [1, 2]

def c5Fetch : List String → Except Unit (List (String × List Int)) :=
  fun b => if b = c5B then Except.error ()
    else Except.ok (b.map fun kw => (kw, c5Vals kw))

/-! # Theorems -/

/-! ## Helper lemmas -/

theorem max0_trunc_floor (q : ℚ) : max 0 (pyTrunc q) = max 0 ⌊q⌋ := by
  unfold pyTrunc
  split_ifs with h
  · rfl
  · push_neg at h
    have h1 : ⌈q⌉ ≤ 0 := Int.ceil_le.mpr (by exact_mod_cast h.le)
    have h2 : ⌊q⌋ ≤ 0 := Int.floor_nonpos h.le
    omega

theorem trendHitB_eq_amended (titleNorm : String) :
    trendHitB titleNorm = amendedPhraseMatchB titleNorm := by
  funext t
  rfl

/-- C1: the scoring function as the code computes it coincides with the
spec formula once the keyword bonus requires a nonempty normalized keyword
and empty trending phrases are skipped; the score is always within [0,100]
and the signal is 1 only when some trending phrase matched. -/
theorem C1_theorem (nowSec pubSec : ℚ) (title keyword : String)
    (trends : List String) (d : Int) :
    calc_trend_score nowSec pubSec title keyword trends d =
      (amendedScore nowSec pubSec title keyword trends d,
       amendedSignal title trends) ∧
    0 ≤ (calc_trend_score nowSec pubSec title keyword trends d).1 ∧
    (calc_trend_score nowSec pubSec title keyword trends d).1 ≤ 100 ∧
    ((calc_trend_score nowSec pubSec title keyword trends d).2 = 1 →
      ∃ t ∈ trends, amendedPhraseMatchB (normalize_text title) t = true) := by
  have hrec := max0_trunc_floor (45 - max 0 ((nowSec - pubSec) / 3600) * (7/2))
  refine ⟨?_, ?_, ?_, ?_⟩
  · unfold calc_trend_score amendedScore amendedSignal amendedTrendBonus
      amendedKeywordBonus claimDensityBonus claimRecency
    dsimp only
    rw [← trendHitB_eq_amended]
    rw [hrec]
    split_ifs with h1 h2 h2 <;> simp only [Prod.mk.injEq] <;>
      exact ⟨by omega, trivial⟩
  · unfold calc_trend_score
    dsimp only
    exact le_max_left _ _
  · unfold calc_trend_score
    dsimp only
    exact max_le (by norm_num) (min_le_left _ _)
  · unfold calc_trend_score
    dsimp only
    rw [← trendHitB_eq_amended]
    by_cases ht : trends.any (trendHitB (normalize_text title)) = true
    · intro _
      exact List.any_eq_true.mp ht
    · rw [if_neg ht]
      intro h
      exact absurd h (by decide)

/-- C1 counterexample to the claim as stated, at two concrete inputs: with
an empty keyword the normalized keyword ("") is a substring of every title,
so the claim's formula awards the +20 keyword bonus but the code's guard
`if keyword_norm and ...` does not (code 45 vs claim 65); and with the
trending-phrase list `[""]` the empty phrase is a substring of every title,
so the claim's formula sets trendBonus = 25 and signal = 1 but the code's
`if not t: continue` skips it (code (45,0) vs claim (70,1)). -/
theorem C1_counterexample :
    calc_trend_score 0 0 "x" "" [] 0 ≠
      (claimScore 0 0 "x" "" [] 0, claimSignal "x" []) ∧
    calc_trend_score 0 0 "abc" "x" [""] 0 ≠
      (claimScore 0 0 "abc" "x" [""] 0, claimSignal "abc" [""]) := by
  have hq : (45 : ℚ) - (max 0 ((0 - 0) / 3600)) * (7/2) = ((45 : ℤ) : ℚ) := by
    norm_num
  constructor
  · have h1 : calc_trend_score 0 0 "x" "" [] 0 = (45, 0) := by
      unfold calc_trend_score
      have hs : (!(normalize_text "").isEmpty &&
          containsL (normalize_text "").data (normalize_text "x").data) =
            false := by decide
      have ht : List.any [] (trendHitB (normalize_text "x")) = false := by
        decide
      simp only [hs, ht, Bool.false_eq_true, if_false]
      rw [hq]
      unfold pyTrunc
      rw [if_pos (by norm_num), Int.floor_intCast]
      norm_num
    have h2 : (claimScore 0 0 "x" "" [] 0, claimSignal "x" []) = (65, 0) := by
      unfold claimScore claimSignal claimRecency claimKeywordBonus
        claimTrendBonus claimDensityBonus
      have hs : containsL (normalize_text "").data (normalize_text "x").data =
          true := by decide
      have ht : List.any [] (claimPhraseMatchB (normalize_text "x")) =
          false := by decide
      simp only [hs, ht, Bool.false_eq_true, if_false, if_true]
      rw [hq, Int.floor_intCast]
      norm_num
    rw [h1, h2]
    decide
  · have h1 : calc_trend_score 0 0 "abc" "x" [""] 0 = (45, 0) := by
      unfold calc_trend_score
      have hs : (!(normalize_text "x").isEmpty &&
          containsL (normalize_text "x").data (normalize_text "abc").data) =
            false := by decide
      have ht : List.any [""] (trendHitB (normalize_text "abc")) = false := by
        decide
      simp only [hs, ht, Bool.false_eq_true, if_false]
      rw [hq]
      unfold pyTrunc
      rw [if_pos (by norm_num), Int.floor_intCast]
      norm_num
    have h2 : (claimScore 0 0 "abc" "x" [""] 0, claimSignal "abc" [""]) =
        (70, 1) := by
      unfold claimScore claimSignal claimRecency claimKeywordBonus
        claimTrendBonus claimDensityBonus
      have hs : containsL (normalize_text "x").data
          (normalize_text "abc").data = false := by decide
      have ht : List.any [""] (claimPhraseMatchB (normalize_text "abc")) =
          true := by decide
      simp only [hs, ht, Bool.false_eq_true, if_false, if_true]
      rw [hq, Int.floor_intCast]
      norm_num
    rw [h1, h2]
    decide

/-- C1 witness: the main theorem applied at a concrete input. -/
theorem C1_witness :
    calc_trend_score 0 0 "abc def" "cde" ["zzz"] 3 =
      (amendedScore 0 0 "abc def" "cde" ["zzz"] 3,
       amendedSignal "abc def" ["zzz"]) ∧
    0 ≤ (calc_trend_score 0 0 "abc def" "cde" ["zzz"] 3).1 ∧
    (calc_trend_score 0 0 "abc def" "cde" ["zzz"] 3).1 ≤ 100 ∧
    ((calc_trend_score 0 0 "abc def" "cde" ["zzz"] 3).2 = 1 →
      ∃ t ∈ ["zzz"], amendedPhraseMatchB (normalize_text "abc def") t = true) :=
  C1_theorem 0 0 "abc def" "cde" ["zzz"] 3

/-! ## C2: deduplication on re-ingesting an existing link -/

/-- C2 (amended): re-ingesting a candidate whose link is already stored never
creates a second record; the stored record gets the new score, signal and
keyword; `source` is backfilled only when absent; `published_at` is
overwritten by the new value whenever the new value is present (kept only
when the new value is absent). -/
theorem C2_theorem (db : List NewsRecord) (it : NewsItem) (s sig : Int)
    (d : String) (hN : (db.map NewsRecord.link).Nodup)
    (hm : it.link ∈ db.map NewsRecord.link) :
    (upsertNews db it s sig d).2 = false ∧
    (upsertNews db it s sig d).1 =
      db.map (fun r => if r.link = it.link then refreshNews it s sig r else r) ∧
    (upsertNews db it s sig d).1.length = db.length ∧
    ((upsertNews db it s sig d).1.map NewsRecord.link).count it.link = 1 ∧
    (∀ r : NewsRecord,
      (refreshNews it s sig r).trend_score = s ∧
      (refreshNews it s sig r).trend_signal = sig ∧
      (refreshNews it s sig r).keyword = it.keyword ∧
      (refreshNews it s sig r).source =
        (match r.source with
          | some v => some v
          | none => it.source) ∧
      (refreshNews it s sig r).published_at =
        (match it.published_at with
          | some v => some v
          | none => r.published_at) ∧
      (refreshNews it s sig r).link = r.link) := by
  obtain ⟨r0, hr0, hlink⟩ := List.mem_map.mp hm
  have hany : db.any (fun r => decide (r.link = it.link)) = true :=
    List.any_eq_true.mpr ⟨r0, hr0, by simp [hlink]⟩
  have hlinks : (upsertNews db it s sig d).1.map NewsRecord.link =
      db.map NewsRecord.link := by
    unfold upsertNews
    rw [if_pos hany]
    rw [List.map_map]
    apply List.map_congr_left
    intro r _
    by_cases h : r.link = it.link <;> simp [h, refreshNews]
  refine ⟨?_, ?_, ?_, ?_, ?_⟩
  · unfold upsertNews
    rw [if_pos hany]
  · unfold upsertNews
    rw [if_pos hany]
  · unfold upsertNews
    rw [if_pos hany]
    exact List.length_map _ _
  · rw [hlinks]
    exact List.count_eq_one_of_mem hN hm
  · intro r
    refine ⟨rfl, rfl, rfl, ?_, ?_, rfl⟩
    · simp only [refreshNews]
      cases h : r.source <;> simp [Option.orElse, h]
    · simp only [refreshNews]
      cases h : it.published_at <;> simp [Option.orElse, h]

/-- C2 counterexample to the claim as stated: a stored record with a
populated `published_at` is re-ingested with a different `published_at`;
the code's `published_at = COALESCE(?, published_at)` takes the NEW value,
overwriting the populated stored value. -/
theorem C2_counterexample :
    (upsertNews [cexStoredRecord] cexNewItem 50 1
        "2025-06-02T00:00:00+00:00").1.map NewsRecord.published_at =
      [cexNewItem.published_at] ∧
    cexStoredRecord.published_at ≠ cexNewItem.published_at ∧
    cexStoredRecord.published_at.isSome = true := by
  decide

/-- C2 witness: the amended theorem applied to the concrete one-record
table. -/
theorem C2_witness :
    (upsertNews [cexStoredRecord] cexNewItem 50 1 "d").2 = false ∧
    (upsertNews [cexStoredRecord] cexNewItem 50 1 "d").1.length = 1 :=
  ⟨(C2_theorem [cexStoredRecord] cexNewItem 50 1 "d" (by decide) (by decide)).1,
   (C2_theorem [cexStoredRecord] cexNewItem 50 1 "d" (by decide) (by decide)).2.2.1⟩

/-! ## C3: single-flight guard -/

theorem scanSys_inv (evs : List ScanEv) :
    ∀ s : ScanSys, (s.inProgress = if s.lockHeld then 1 else 0) →
      ((evs.foldl scanSysStep s).inProgress =
        if (evs.foldl scanSysStep s).lockHeld then 1 else 0) := by
  induction evs with
  | nil => intro s h; exact h
  | cons e rest ih =>
    intro s h
    apply ih
    cases e <;> unfold scanSysStep <;>
      rcases hl : s.lockHeld <;> simp [hl] at h ⊢ <;> omega

/-- C3: an attempt to start a scan while the lock is held is rejected
immediately with the "scan already in progress" error, leaving the state —
in particular the `scans` audit table — untouched and issuing no network
calls; and in the lock-granularity interleaving model at most one scan
cycle is in progress at any time. -/
theorem C3_theorem :
    (∀ (st : AppState) (o : ScanOracle), st.lockHeld = true →
      scan_now st o =
        (st, { success := false, error := some "Tarama zaten devam ediyor." },
         [])) ∧
    (∀ evs : List ScanEv, (scanSysRun evs).inProgress ≤ 1) := by
  constructor
  · intro st o h
    unfold scan_now
    rw [if_pos h]
  · intro evs
    have h := scanSys_inv evs ⟨false, 0, 0⟩ (by simp)
    unfold scanSysRun
    split_ifs at h <;> omega

/-- C3 witness: the theorem applied to a concrete locked state. -/
theorem C3_witness :
    scan_now lockedState oracle0 =
      (lockedState,
       { success := false, error := some "Tarama zaten devam ediyor." }, []) :=
  C3_theorem.1 lockedState oracle0 rfl

/-! ## C6: empty tracked-keyword list -/

theorem set_append_singleton {α : Type} (l : List α) (a b : α) :
    (l ++ [a]).set l.length b = l ++ [b] := by
  induction l with
  | nil => rfl
  | cons x t ih => simp [List.set, ih]

/-- C6: with the lock free and no tracked keywords, a scan immediately
closes the just-opened audit entry as failed with the fixed
"Anahtar kelime yok" error, returns `success=false` with the
missing-keywords message, and issues no network calls. -/
theorem C6_theorem (st : AppState) (o : ScanOracle)
    (hl : st.lockHeld = false) (hk : st.keywords = []) :
    scan_now st o =
      ({ st with scans := st.scans ++
          [{ started_at := o.startIso, finished_at := some o.finishIso,
             new_articles := 0, total_articles := 0, success := 0,
             error := some "Anahtar kelime yok" }] },
       { success := false, error := some "Lutfen once anahtar kelime ekleyin." },
       []) := by
  obtain ⟨kws, news, scans, settings, lock, lastA⟩ := st
  simp only at hl hk
  subst hl
  subst hk
  unfold scan_now
  simp [set_append_singleton]

/-- C6 witness: the theorem applied to a concrete keywordless state. -/
theorem C6_witness :
    scan_now emptyKwState oracle0 =
      ({ emptyKwState with scans :=
          [{ started_at := oracle0.startIso,
             finished_at := some oracle0.finishIso,
             new_articles := 0, total_articles := 0, success := 0,
             error := some "Anahtar kelime yok" }] },
       { success := false, error := some "Lutfen once anahtar kelime ekleyin." },
       []) :=
  C6_theorem emptyKwState oracle0 rfl rfl

/-! ## Frame lemmas for the scan orchestrator -/

theorem scan_settings_frame (st : AppState) (o : ScanOracle) :
    (scan_now st o).1.settings.auto_scan = st.settings.auto_scan ∧
    (scan_now st o).1.settings.interval_minutes =
      st.settings.interval_minutes := by
  unfold scan_now
  dsimp only
  split_ifs with h1 h2
  · exact ⟨rfl, rfl⟩
  · exact ⟨rfl, rfl⟩
  · cases hres : (scanProcess st.keywords st.news o).2.2.2 with
    | none => exact ⟨rfl, rfl⟩
    | some msg => exact ⟨rfl, rfl⟩

theorem scan_fail_frame (st : AppState) (o : ScanOracle)
    (h : (scan_now st o).2.1.success = false) :
    (scan_now st o).1.lastAuto = st.lastAuto ∧
    (scan_now st o).1.settings.last_scan_time =
      st.settings.last_scan_time := by
  unfold scan_now at h ⊢
  dsimp only at h ⊢
  split_ifs at h ⊢ with h1 h2
  · exact ⟨rfl, rfl⟩
  · exact ⟨rfl, rfl⟩
  · cases hres : (scanProcess st.keywords st.news o).2.2.2 with
    | none => rw [hres] at h; simp at h
    | some msg => exact ⟨rfl, rfl⟩

theorem scan_success_sets (st : AppState) (o : ScanOracle)
    (h : (scan_now st o).2.1.success = true) :
    (scan_now st o).1.lastAuto = o.nowSec ∧
    (scan_now st o).1.settings.last_scan_time = o.finishIso := by
  unfold scan_now at h ⊢
  dsimp only at h ⊢
  split_ifs at h ⊢ with h1 h2
  cases hres : (scanProcess st.keywords st.news o).2.2.2 with
  | none => exact ⟨rfl, rfl⟩
  | some msg => rw [hres] at h; simp at h

/-! ## Tick lemmas for the scheduler -/

theorem tick_invoked_iff (st : AppState) (inp : TickInput)
    (h : inp.readFail = false) :
    (auto_scan_tick st inp).2 = true ↔ tickGuard st inp.now := by
  unfold auto_scan_tick tickGuard
  rw [if_neg (by simp [h])]
  dsimp only
  split_ifs with hg
  · simpa using hg
  · simpa using hg

theorem tick_invokes_scan (st : AppState) (inp : TickInput)
    (h : inp.readFail = false) (hg : tickGuard st inp.now) :
    auto_scan_tick st inp = ((scan_now st inp.oracle).1, true) := by
  unfold auto_scan_tick
  rw [if_neg (by simp [h])]
  dsimp only
  unfold tickGuard at hg
  rw [if_pos hg]

theorem guard_after_fail (st : AppState) (o : ScanOracle) (t t' : ℚ)
    (hfail : (scan_now st o).2.1.success = false)
    (hg : tickGuard st t) (ht : t ≤ t') :
    tickGuard ((scan_now st o).1) t' := by
  obtain ⟨hla, _⟩ := scan_fail_frame st o hfail
  obtain ⟨hauto, hint⟩ := scan_settings_frame st o
  unfold tickGuard at hg ⊢
  rw [hla, hauto, hint]
  refine ⟨hg.1, ?_⟩
  rcases hg.2 with h0 | hge
  · exact Or.inl h0
  · exact Or.inr (le_trans hge (by linarith))

/-! ## C8: the auto-scan scheduler -/

/-- C8: a tick whose settings reads succeed invokes the orchestrator exactly
when auto-scan is enabled and either no last-run timestamp is recorded or
the elapsed time reaches the interval clamped to [2,180] minutes; an
invoking tick runs `scan_now` itself; a successful scan — however triggered —
updates the single shared last-run timestamp; a tick whose reads raise is
swallowed, leaving the state unchanged; and the loop always proceeds to the
next tick. -/
theorem C8_theorem :
    (∀ (st : AppState) (inp : TickInput), inp.readFail = false →
      ((auto_scan_tick st inp).2 = true ↔
        (st.settings.auto_scan = true ∧
          (st.lastAuto = 0 ∨
            (clampInterval st.settings.interval_minutes : ℚ) * 60 ≤
              inp.now - st.lastAuto)))) ∧
    (∀ (st : AppState) (inp : TickInput), inp.readFail = false →
      tickGuard st inp.now →
      auto_scan_tick st inp = ((scan_now st inp.oracle).1, true)) ∧
    (∀ (st : AppState) (o : ScanOracle), (scan_now st o).2.1.success = true →
      (scan_now st o).1.lastAuto = o.nowSec) ∧
    (∀ (st : AppState) (inp : TickInput), inp.readFail = true →
      auto_scan_tick st inp = (st, false)) ∧
    (∀ (st0 : AppState) (inputs : Nat → TickInput) (n : Nat),
      auto_scan_worker st0 inputs (n + 1) =
        (auto_scan_tick (auto_scan_worker st0 inputs n) (inputs n)).1) := by
  refine ⟨?_, tick_invokes_scan, ?_, ?_, ?_⟩
  · intro st inp h
    exact tick_invoked_iff st inp h
  · intro st o h
    exact (scan_success_sets st o h).1
  · intro st inp h
    unfold auto_scan_tick
    rw [if_pos h]
  · intro st0 inputs n
    rfl

/-- C8 witness: the guard-iff conjunct applied at a concrete state and tick
input, plus the swallowed-exception conjunct at a concrete input. -/
theorem C8_witness :
    ((auto_scan_tick emptyKwState tickInput0).2 = true ↔
      (emptyKwState.settings.auto_scan = true ∧
        (emptyKwState.lastAuto = 0 ∨
          (clampInterval emptyKwState.settings.interval_minutes : ℚ) * 60 ≤
            tickInput0.now - emptyKwState.lastAuto))) ∧
    auto_scan_tick lockedState tickInputFail = (lockedState, false) :=
  ⟨C8_theorem.1 emptyKwState tickInput0 rfl,
   C8_theorem.2.2.2.1 lockedState tickInputFail rfl⟩

/-! ## C9: last-run bookkeeping is updated only by a successful scan -/

/-- C9: a scan that fails (busy rejection, empty keyword list, or an
unexpected error) leaves both the persisted `last_scan_time` setting and the
in-process last-auto-scan timestamp unchanged, and never touches the
enabled/interval settings; consequently, if the scheduler's guard held when
the failed scan started, it still holds at any later tick, which therefore
invokes a scan again rather than waiting a full interval. -/
theorem C9_theorem :
    (∀ (st : AppState) (o : ScanOracle), (scan_now st o).2.1.success = false →
      (scan_now st o).1.lastAuto = st.lastAuto ∧
      (scan_now st o).1.settings.last_scan_time =
        st.settings.last_scan_time) ∧
    (∀ (st : AppState) (o : ScanOracle),
      (scan_now st o).1.settings.auto_scan = st.settings.auto_scan ∧
      (scan_now st o).1.settings.interval_minutes =
        st.settings.interval_minutes) ∧
    (∀ (st : AppState) (o : ScanOracle) (t t' : ℚ),
      (scan_now st o).2.1.success = false →
      tickGuard st t → t ≤ t' → tickGuard ((scan_now st o).1) t') ∧
    (∀ (st : AppState) (o : ScanOracle) (inp : TickInput),
      (scan_now st o).2.1.success = false → inp.readFail = false →
      tickGuard st inp.now →
      (auto_scan_tick ((scan_now st o).1) inp).2 = true) := by
  refine ⟨scan_fail_frame, scan_settings_frame, guard_after_fail, ?_⟩
  intro st o inp hfail hrf hg
  exact (tick_invoked_iff _ inp hrf).mpr
    (guard_after_fail st o inp.now inp.now hfail hg le_rfl)

/-- C9 witness: a busy-rejected scan at a concrete locked state leaves the
shared last-run timestamp and the stored last-scan-time unchanged. -/
theorem C9_witness :
    (scan_now lockedState oracle0).1.lastAuto = lockedState.lastAuto ∧
    (scan_now lockedState oracle0).1.settings.last_scan_time =
      lockedState.settings.last_scan_time :=
  C9_theorem.1 lockedState oracle0 rfl

/-! ## Cache lemmas -/

theorem assocGet_assocSet {α : Type} (m : List (String × α)) (a k : String)
    (v : α) :
    assocGet (assocSet m a v) k = if a = k then some v else assocGet m k := by
  induction m with
  | nil => simp [assocSet, assocGet]
  | cons p t ih =>
    obtain ⟨k', v'⟩ := p
    by_cases h1 : k' = a
    · subst h1
      by_cases h2 : k' = k <;> simp [assocSet, assocGet, h2]
    · by_cases h2 : a = k
      · subst h2
        simp [assocSet, assocGet, h1, ih]
      · simp [assocSet, assocGet, h1, h2, ih]

theorem related_hit {α : Type} (cache : List (String × ℚ × α))
    (f : Unit → α) (kw geo tf : String) (ttl ts now : ℚ) (d : α)
    (h : assocGet cache (relatedKey kw geo tf) = some (ts, d))
    (hlt : now - ts < ttl) :
    cached_related_queries_for_keyword cache f kw geo tf ttl false now =
      (cache, d, false) := by
  unfold cached_related_queries_for_keyword
  dsimp only
  rw [h]
  dsimp only
  rw [if_pos ⟨rfl, hlt⟩]

theorem related_miss_none {α : Type} (cache : List (String × ℚ × α))
    (f : Unit → α) (kw geo tf : String) (ttl now : ℚ)
    (h : assocGet cache (relatedKey kw geo tf) = none) (force : Bool) :
    cached_related_queries_for_keyword cache f kw geo tf ttl force now =
      (assocSet cache (relatedKey kw geo tf) (now, f ()), f (), true) := by
  unfold cached_related_queries_for_keyword
  dsimp only
  rw [h]

theorem related_stale {α : Type} (cache : List (String × ℚ × α))
    (f : Unit → α) (kw geo tf : String) (ttl ts now : ℚ) (d : α)
    (h : assocGet cache (relatedKey kw geo tf) = some (ts, d))
    (hge : ¬ now - ts < ttl) :
    cached_related_queries_for_keyword cache f kw geo tf ttl false now =
      (assocSet cache (relatedKey kw geo tf) (now, f ()), f (), true) := by
  unfold cached_related_queries_for_keyword
  dsimp only
  rw [h]
  dsimp only
  rw [if_neg (fun hc => hge hc.2)]

theorem related_force {α : Type} (cache : List (String × ℚ × α))
    (f : Unit → α) (kw geo tf : String) (ttl now : ℚ) :
    cached_related_queries_for_keyword cache f kw geo tf ttl true now =
      (assocSet cache (relatedKey kw geo tf) (now, f ()), f (), true) := by
  unfold cached_related_queries_for_keyword
  dsimp only
  cases h : assocGet cache (relatedKey kw geo tf) with
  | none => rfl
  | some item =>
    dsimp only
    rw [if_neg (fun hc => by simpa using hc.1)]

theorem trends_hit {α : Type} (c : TrendsCacheState α) (b : Unit → α)
    (kws : List String) (ttl now : ℚ) (h : c.sig = trendsSig kws)
    (hlt : now - c.ts < ttl) :
    cached_last_hour_trends c b kws ttl false now = (c, c.data, false) := by
  unfold cached_last_hour_trends
  rw [if_pos ⟨rfl, h, hlt⟩]

theorem trends_refetch {α : Type} (c : TrendsCacheState α) (b : Unit → α)
    (kws : List String) (ttl now : ℚ) (force : Bool)
    (h : ¬ (force = false ∧ c.sig = trendsSig kws ∧ now - c.ts < ttl)) :
    cached_last_hour_trends c b kws ttl force now =
      (⟨now, trendsSig kws, b ()⟩, b (), true) := by
  unfold cached_last_hour_trends
  rw [if_neg h]

theorem trendsSig_perm (l1 l2 : List String) (h : l1.Perm l2) :
    trendsSig l1 = trendsSig l2 := by
  unfold trendsSig
  congr 1
  apply List.eq_of_perm_of_sorted (r := ((· ≤ ·) : String → String → Prop))
  · exact ((List.perm_insertionSort _ _).trans (h.map _)).trans
      (List.perm_insertionSort _ _).symm
  · exact List.sorted_insertionSort _ _
  · exact List.sorted_insertionSort _ _

theorem related_two_calls {α : Type} (cache : List (String × ℚ × α))
    (f1 f2 : Unit → α) (kw geo tf : String) (ttl t0 t1 : ℚ)
    (h01 : t0 ≤ t1) (hlt : t1 - t0 < ttl) :
    ¬((cached_related_queries_for_keyword cache f1 kw geo tf ttl false t0).2.2
        = true ∧
      (cached_related_queries_for_keyword
        (cached_related_queries_for_keyword cache f1 kw geo tf ttl false t0).1
        f2 kw geo tf ttl false t1).2.2 = true) ∧
    (∃ ts', assocGet
        (cached_related_queries_for_keyword
          (cached_related_queries_for_keyword cache f1 kw geo tf ttl false t0).1
          f2 kw geo tf ttl false t1).1 (relatedKey kw geo tf) =
      some (ts',
        (cached_related_queries_for_keyword
          (cached_related_queries_for_keyword cache f1 kw geo tf ttl false t0).1
          f2 kw geo tf ttl false t1).2.1)) := by
  have hset : ∀ (v : ℚ × α),
      assocGet (assocSet cache (relatedKey kw geo tf) v)
        (relatedKey kw geo tf) = some v := by
    intro v
    rw [assocGet_assocSet]
    simp
  cases hc : assocGet cache (relatedKey kw geo tf) with
  | none =>
    have e1 := related_miss_none cache f1 kw geo tf ttl t0 hc false
    rw [e1]
    have e2 := related_hit (assocSet cache (relatedKey kw geo tf) (t0, f1 ()))
      f2 kw geo tf ttl t0 t1 (f1 ()) (hset _) (by linarith)
    rw [e2]
    exact ⟨by simp, ⟨t0, by rw [hset]⟩⟩
  | some item =>
    obtain ⟨ts, dta⟩ := item
    by_cases ha : t0 - ts < ttl
    · have e1 := related_hit cache f1 kw geo tf ttl ts t0 dta hc ha
      rw [e1]
      by_cases hb : t1 - ts < ttl
      · have e2 := related_hit cache f2 kw geo tf ttl ts t1 dta hc hb
        rw [e2]
        exact ⟨by simp, ⟨ts, by rw [hc]⟩⟩
      · have e2 := related_stale cache f2 kw geo tf ttl ts t1 dta hc hb
        rw [e2]
        exact ⟨by simp, ⟨t1, by rw [hset]⟩⟩
    · have e1 := related_stale cache f1 kw geo tf ttl ts t0 dta hc ha
      rw [e1]
      have e2 := related_hit (assocSet cache (relatedKey kw geo tf) (t0, f1 ()))
        f2 kw geo tf ttl t0 t1 (f1 ()) (hset _) (by linarith)
      rw [e2]
      exact ⟨by simp, ⟨t0, by rw [hset]⟩⟩

theorem trends_two_calls {α : Type} (c : TrendsCacheState α)
    (b1 b2 : Unit → α) (kws : List String) (ttl t0 t1 : ℚ)
    (h01 : t0 ≤ t1) (hlt : t1 - t0 < ttl) :
    ¬((cached_last_hour_trends c b1 kws ttl false t0).2.2 = true ∧
      (cached_last_hour_trends (cached_last_hour_trends c b1 kws ttl false t0).1
        b2 kws ttl false t1).2.2 = true) ∧
    (cached_last_hour_trends (cached_last_hour_trends c b1 kws ttl false t0).1
        b2 kws ttl false t1).2.1 =
      (cached_last_hour_trends (cached_last_hour_trends c b1 kws ttl false t0).1
        b2 kws ttl false t1).1.data ∧
    (cached_last_hour_trends (cached_last_hour_trends c b1 kws ttl false t0).1
        b2 kws ttl false t1).1.sig = trendsSig kws := by
  by_cases hs : c.sig = trendsSig kws
  · by_cases hta : t0 - c.ts < ttl
    · have e1 := trends_hit c b1 kws ttl t0 hs hta
      rw [e1]
      by_cases htb : t1 - c.ts < ttl
      · have e2 := trends_hit c b2 kws ttl t1 hs htb
        rw [e2]
        exact ⟨by simp, rfl, hs⟩
      · have e2 := trends_refetch c b2 kws ttl t1 false (fun hcn => htb hcn.2.2)
        rw [e2]
        exact ⟨by simp, rfl, rfl⟩
    · have e1 := trends_refetch c b1 kws ttl t0 false (fun hcn => hta hcn.2.2)
      rw [e1]
      have e2 := trends_hit ⟨t0, trendsSig kws, b1 ()⟩ b2 kws ttl t1 rfl
        (by dsimp only; linarith)
      rw [e2]
      exact ⟨by simp, rfl, rfl⟩
  · have e1 := trends_refetch c b1 kws ttl t0 false (fun hcn => hs hcn.2.1)
    rw [e1]
    have e2 := trends_hit ⟨t0, trendsSig kws, b1 ()⟩ b2 kws ttl t1 rfl
      (by dsimp only; linarith)
    rw [e2]
    exact ⟨by simp, rfl, rfl⟩

/-! ## C4: the two TTL caches -/

/-- C4: for both cached lookups — related queries (keyed
`normalizedKeyword|geo|timeframe`) and the interest index (keyed by the
sorted normalized pipe-joined keyword set, hence permutation-invariant) —
a repeat call with the same key, `forceRefresh=false`, within TTL of the
first issues at most one upstream call across the two calls and the second
returns the value stored in the cache; a call after TTL expiry or with
`forceRefresh=true` always re-fetches and stores the new value. -/
theorem C4_theorem :
    (∀ (α : Type) (cache : List (String × ℚ × α)) (f : Unit → α)
      (kw geo tf : String) (ttl ts now : ℚ) (d : α),
      assocGet cache (relatedKey kw geo tf) = some (ts, d) →
      now - ts < ttl →
      cached_related_queries_for_keyword cache f kw geo tf ttl false now =
        (cache, d, false)) ∧
    (∀ (α : Type) (cache : List (String × ℚ × α)) (f1 f2 : Unit → α)
      (kw geo tf : String) (ttl t0 t1 : ℚ), t0 ≤ t1 → t1 - t0 < ttl →
      ¬((cached_related_queries_for_keyword cache f1 kw geo tf ttl
          false t0).2.2 = true ∧
        (cached_related_queries_for_keyword
          (cached_related_queries_for_keyword cache f1 kw geo tf ttl
            false t0).1 f2 kw geo tf ttl false t1).2.2 = true) ∧
      (∃ ts', assocGet
          (cached_related_queries_for_keyword
            (cached_related_queries_for_keyword cache f1 kw geo tf ttl
              false t0).1 f2 kw geo tf ttl false t1).1
          (relatedKey kw geo tf) =
        some (ts',
          (cached_related_queries_for_keyword
            (cached_related_queries_for_keyword cache f1 kw geo tf ttl
              false t0).1 f2 kw geo tf ttl false t1).2.1))) ∧
    (∀ (α : Type) (cache : List (String × ℚ × α)) (f : Unit → α)
      (kw geo tf : String) (ttl now : ℚ),
      cached_related_queries_for_keyword cache f kw geo tf ttl true now =
        (assocSet cache (relatedKey kw geo tf) (now, f ()), f (), true)) ∧
    (∀ (α : Type) (cache : List (String × ℚ × α)) (f : Unit → α)
      (kw geo tf : String) (ttl ts now : ℚ) (d : α),
      assocGet cache (relatedKey kw geo tf) = some (ts, d) →
      ¬ now - ts < ttl →
      cached_related_queries_for_keyword cache f kw geo tf ttl false now =
        (assocSet cache (relatedKey kw geo tf) (now, f ()), f (), true)) ∧
    (∀ (α : Type) (c : TrendsCacheState α) (b : Unit → α)
      (kws : List String) (ttl now : ℚ),
      c.sig = trendsSig kws → now - c.ts < ttl →
      cached_last_hour_trends c b kws ttl false now = (c, c.data, false)) ∧
    (∀ (α : Type) (c : TrendsCacheState α) (b1 b2 : Unit → α)
      (kws : List String) (ttl t0 t1 : ℚ), t0 ≤ t1 → t1 - t0 < ttl →
      ¬((cached_last_hour_trends c b1 kws ttl false t0).2.2 = true ∧
        (cached_last_hour_trends
          (cached_last_hour_trends c b1 kws ttl false t0).1
          b2 kws ttl false t1).2.2 = true) ∧
      (cached_last_hour_trends
          (cached_last_hour_trends c b1 kws ttl false t0).1
          b2 kws ttl false t1).2.1 =
        (cached_last_hour_trends
          (cached_last_hour_trends c b1 kws ttl false t0).1
          b2 kws ttl false t1).1.data) ∧
    (∀ (α : Type) (c : TrendsCacheState α) (b : Unit → α)
      (kws : List String) (ttl now : ℚ) (force : Bool),
      (force = true ∨ ¬ now - c.ts < ttl) →
      cached_last_hour_trends c b kws ttl force now =
        (⟨now, trendsSig kws, b ()⟩, b (), true)) ∧
    (∀ kw geo tf : String,
      relatedKey kw geo tf = normalize_text kw ++ "|" ++ geo ++ "|" ++ tf) ∧
    (∀ l1 l2 : List String, l1.Perm l2 → trendsSig l1 = trendsSig l2) := by
  refine ⟨@related_hit, ?_, @related_force, @related_stale, @trends_hit, ?_, ?_,
    fun _ _ _ => rfl, trendsSig_perm⟩
  · intro α cache f1 f2 kw geo tf ttl t0 t1 h01 hlt
    exact related_two_calls cache f1 f2 kw geo tf ttl t0 t1 h01 hlt
  · intro α c b1 b2 kws ttl t0 t1 h01 hlt
    exact ⟨(trends_two_calls c b1 b2 kws ttl t0 t1 h01 hlt).1,
      (trends_two_calls c b1 b2 kws ttl t0 t1 h01 hlt).2.1⟩
  · intro α c b kws ttl now force h
    apply trends_refetch
    intro hcn
    rcases h with h | h
    · rw [h] at hcn
      exact absurd hcn.1 (by simp)
    · exact h hcn.2.2

/-- C4 witness: the TTL-hit conjunct of the theorem applied to a concrete
one-entry related cache, and the forced-refresh conjunct of the trends cache
at concrete arguments. -/
theorem C4_witness :
    cached_related_queries_for_keyword
        [(relatedKey "AI" "TR" "now 1-H", ((10 : ℚ), (7 : Nat)))]
        (fun _ => 7) "AI" "TR" "now 1-H" 300 false 100 =
      ([(relatedKey "AI" "TR" "now 1-H", ((10 : ℚ), (7 : Nat)))], 7, false) ∧
    cached_last_hour_trends (⟨0, "", 0⟩ : TrendsCacheState Nat)
        (fun _ => 3) ["ai"] 240 true 50 =
      (⟨50, trendsSig ["ai"], 3⟩, 3, true) :=
  ⟨C4_theorem.1 Nat _ _ "AI" "TR" "now 1-H" 300 10 100 7
      (by rw [assocGet]; simp) (by norm_num),
   C4_theorem.2.2.2.2.2.2.1 Nat ⟨0, "", 0⟩ _ ["ai"] 240 50 true (Or.inl rfl)⟩

/-! ## C10: the interest-index cache is a single-entry cache -/

/-- C10: the interest-index cache is one (timestamp, signature, value)
triple; a lookup whose sorted-normalized keyword signature differs from the
stored signature always recomputes and overwrites that single entry — even
when `forceRefresh=false` and the stored entry's TTL has not yet expired. -/
theorem C10_theorem (α : Type) (c : TrendsCacheState α) (build : Unit → α)
    (keywords : List String) (ttl now : ℚ)
    (hsig : trendsSig keywords ≠ c.sig)
    (httl : now - c.ts < ttl) :
    cached_last_hour_trends c build keywords ttl false now =
      (⟨now, trendsSig keywords, build ()⟩, build (), true) :=
  trends_refetch c build keywords ttl now false
    (fun hcn => hsig hcn.2.1.symm)

/-- C10 witness: a cached set `["ai"]` is evicted by a lookup for `["btc"]`
well inside the TTL. -/
theorem C10_witness :
    cached_last_hour_trends
        (⟨90, trendsSig ["ai"], 5⟩ : TrendsCacheState Nat)
        (fun _ => 9) ["btc"] 240 false 100 =
      (⟨100, trendsSig ["btc"], 9⟩, 9, true) :=
  C10_theorem Nat ⟨90, trendsSig ["ai"], 5⟩ (fun _ => 9) ["btc"] 240 100
    (by decide) (by norm_num)

/-! ## Chunking lemmas (C5) -/

theorem chunkedFuel_flatten {α : Type} (n : ℕ) :
    ∀ (fuel : ℕ) (l : List α), l.length ≤ fuel →
      (chunkedFuel fuel l (n + 1)).flatten = l := by
  intro fuel
  induction fuel with
  | zero =>
    intro l h
    rw [List.eq_nil_of_length_eq_zero (Nat.le_zero.mp h)]
    rfl
  | succ f ih =>
    intro l h
    cases l with
    | nil => rfl
    | cons x xs =>
      rw [chunkedFuel, List.flatten_cons,
        ih ((x :: xs).drop (n + 1))
          (by rw [List.length_drop]; simp only [List.length_cons] at h ⊢; omega)]
      exact List.take_append_drop _ _

theorem chunked_flatten {α : Type} (n : ℕ) (l : List α) :
    (chunked l (n + 1)).flatten = l :=
  chunkedFuel_flatten n l.length l le_rfl

theorem chunkedFuel_batch_size {α : Type} (n : ℕ) :
    ∀ (fuel : ℕ) (l : List α), l.length ≤ fuel →
      ∀ b ∈ chunkedFuel fuel l (n + 1), b ≠ [] ∧ b.length ≤ n + 1 := by
  intro fuel
  induction fuel with
  | zero =>
    intro l h b hb
    rw [List.eq_nil_of_length_eq_zero (Nat.le_zero.mp h)] at hb
    simp [chunkedFuel] at hb
  | succ f ih =>
    intro l h b hb
    cases l with
    | nil => simp [chunkedFuel] at hb
    | cons x xs =>
      rw [chunkedFuel, List.mem_cons] at hb
      rcases hb with hb | hb
      · subst hb
        constructor
        · simp
        · simpa using List.length_take_le _ _
      · exact ih ((x :: xs).drop (n + 1))
          (by rw [List.length_drop]; simp only [List.length_cons] at h ⊢; omega)
          b hb

theorem chunked_batch_size {α : Type} (n : ℕ) (l : List α) :
    ∀ b ∈ chunked l (n + 1), b ≠ [] ∧ b.length ≤ n + 1 :=
  chunkedFuel_batch_size n l.length l le_rfl

/-! ## Dict-fold lemmas (C5) -/

theorem assocGet_append_singleton {α : Type} (m : List (String × α))
    (k' k : String) (v : α) :
    assocGet (m ++ [(k', v)]) k =
      if (assocGet m k).isSome then assocGet m k
      else if k' = k then some v else none := by
  induction m with
  | nil => simp [assocGet]
  | cons p t ih =>
    obtain ⟨a, w⟩ := p
    by_cases h : a = k <;> simp [assocGet, h, ih]

theorem assocGet_dictSetdefault {α : Type} (m : List (String × α))
    (k' k : String) (v : α) :
    assocGet (dictSetdefault m k' v) k =
      if (assocGet m k).isNone ∧ k' = k then some v else assocGet m k := by
  unfold dictSetdefault
  by_cases hk' : (assocGet m k').isSome
  · rw [if_pos hk']
    split_ifs with hc
    · obtain ⟨hnone, heq⟩ := hc
      subst heq
      rw [Option.isNone_iff_eq_none.mp hnone] at hk'
      simp at hk'
    · rfl
  · rw [if_neg hk', assocGet_append_singleton]
    by_cases hmk : (assocGet m k).isSome
    · rw [if_pos hmk]
      split_ifs with hc
      · rw [Option.isNone_iff_eq_none.mp hc.1] at hmk
        simp at hmk
      · rfl
    · rw [if_neg hmk]
      have hmk' : assocGet m k = none := Option.not_isSome_iff_eq_none.mp hmk
      by_cases he : k' = k <;> simp [hmk', he]

theorem assocGet_setdefault_fold {α : Type} (v : α) :
    ∀ (b : List String) (m : List (String × α)) (k : String),
      assocGet (b.foldl (fun a kw => dictSetdefault a kw v) m) k =
        if k ∈ b ∧ (assocGet m k).isNone then some v else assocGet m k := by
  intro b
  induction b with
  | nil => intro m k; simp
  | cons x rest ih =>
    intro m k
    rw [List.foldl_cons, ih]
    rw [assocGet_dictSetdefault]
    by_cases hmk : assocGet m k = none
    · by_cases hx : x = k
      · simp [hmk, hx]
      · have hxk : ¬(k = x) := fun hc => hx hc.symm
        by_cases hr : k ∈ rest <;> simp [hmk, hx, hxk, hr]
    · by_cases hx : x = k <;>
        simp [hmk, hx, Option.isNone_iff_eq_none]

theorem assocGet_dictUpdate_map {α : Type} (vals : String → α) :
    ∀ (b : List String) (m : List (String × α)) (k : String),
      assocGet (dictUpdate m (b.map fun kw => (kw, vals kw))) k =
        if k ∈ b then some (vals k) else assocGet m k := by
  intro b
  induction b with
  | nil => intro m k; simp [dictUpdate]
  | cons x rest ih =>
    intro m k
    unfold dictUpdate at ih ⊢
    rw [List.map_cons, List.foldl_cons, ih]
    by_cases hr : k ∈ rest
    · simp [hr]
    · rw [assocGet_assocSet]
      by_cases hx : x = k
      · simp [hr, hx]
      · have hxk : ¬(k = x) := fun hc => hx hc.symm
        simp [hr, hx, hxk]

theorem collectFold_spec
    (fetch : List String → Except Unit (List (String × List Int)))
    (vals : String → List Int) (failed : List String → Bool) :
    ∀ (batches : List (List String)) (acc : List (String × List Int)),
      batches.flatten.Nodup →
      (∀ b ∈ batches, fetch b =
        if failed b then Except.error () else
          Except.ok (b.map fun kw => (kw, vals kw))) →
      (∀ kw ∈ batches.flatten, assocGet acc kw = none) →
      (∀ b ∈ batches, ∀ kw ∈ b,
        assocGet (collectFold fetch batches acc) kw =
          some (if failed b then [] else vals kw)) ∧
      (∀ kw, kw ∉ batches.flatten →
        assocGet (collectFold fetch batches acc) kw = assocGet acc kw) := by
  intro batches
  induction batches with
  | nil =>
    intro acc _ _ _
    exact ⟨fun b hb => absurd hb (List.not_mem_nil b), fun kw _ => rfl⟩
  | cons b0 rest ih =>
    intro acc hN hf hacc
    rw [List.flatten_cons] at hN
    rcases List.nodup_append.mp hN with ⟨hnd0, hndr, hdisj⟩
    have hf0 := hf b0 (List.mem_cons_self _ _)
    have hacc1 : ∀ k,
        assocGet (match fetch b0 with
          | Except.ok vals' => dictUpdate acc vals'
          | Except.error _ =>
            b0.foldl (fun a kw' => dictSetdefault a kw' []) acc) k =
          if k ∈ b0 then some (if failed b0 then [] else vals k)
          else assocGet acc k := by
      intro k
      rw [hf0]
      by_cases hfb : failed b0
      · rw [if_pos hfb]
        dsimp only
        rw [assocGet_setdefault_fold]
        by_cases hk0 : k ∈ b0
        · have hk0n : assocGet acc k = none :=
            hacc k (by rw [List.flatten_cons]; exact List.mem_append_left _ hk0)
          simp [hk0, hfb, hk0n]
        · simp [hk0]
      · rw [if_neg hfb]
        dsimp only
        rw [assocGet_dictUpdate_map]
        by_cases hk0 : k ∈ b0 <;> simp [hk0, hfb]
    obtain ⟨ih1, ih2⟩ := ih
      (match fetch b0 with
        | Except.ok vals' => dictUpdate acc vals'
        | Except.error _ =>
          b0.foldl (fun a kw' => dictSetdefault a kw' []) acc)
      hndr (fun b hb => hf b (List.mem_cons_of_mem _ hb))
      (fun kw hkw => by
        rw [hacc1, if_neg (fun hkb => hdisj hkb hkw)]
        exact hacc kw
          (by rw [List.flatten_cons]; exact List.mem_append_right _ hkw))
    constructor
    · intro b hb kw hkw
      rw [collectFold]
      rcases List.mem_cons.mp hb with hb0 | hbr
      · subst hb0
        have hnotr : kw ∉ rest.flatten := fun hc => hdisj hkw hc
        rw [ih2 kw hnotr, hacc1, if_pos hkw]
      · exact ih1 b hbr kw hkw
    · intro kw hkw
      rw [List.flatten_cons, List.mem_append] at hkw
      push_neg at hkw
      rw [collectFold, ih2 kw hkw.2, hacc1, if_neg hkw.1]

theorem mem_two_batches {α : Type} (batches : List (List α)) (b B : List α)
    (kw : α) (hb : b ∈ batches) (hB : B ∈ batches) (hne : b ≠ B)
    (h1 : kw ∈ b) (h2 : kw ∈ B) : ¬ batches.flatten.Nodup := by
  intro hN
  obtain ⟨s, t, hsplit⟩ := List.append_of_mem hb
  have hflat : batches.flatten = s.flatten ++ (b ++ t.flatten) := by
    rw [hsplit, List.flatten_append, List.flatten_cons]
  rw [hflat] at hN
  rcases List.nodup_append.mp hN with ⟨_, hbt, hdisj1⟩
  rcases List.nodup_append.mp hbt with ⟨_, _, hdisj2⟩
  have hBst : B ∈ s ∨ B ∈ t := by
    rw [hsplit] at hB
    rcases List.mem_append.mp hB with h | h
    · exact Or.inl h
    · rcases List.mem_cons.mp h with h | h
      · exact absurd h.symm hne
      · exact Or.inr h
  rcases hBst with h | h
  · exact hdisj1 (List.mem_flatten.mpr ⟨B, h, h2⟩) (List.mem_append_left _ h1)
  · exact hdisj2 h1 (List.mem_flatten.mpr ⟨B, h, h2⟩)

/-! ## C5: batch isolation in the last-hour interest fetch -/

/-- C5: the keywords are chunked into consecutive batches of 8 in list
order; when exactly the batch `B` fails upstream and every other batch
resolves, the result is one item per requested keyword, where each keyword
of `B` carries the empty series (latest 0, averages 0, no points) and every
other keyword carries the item computed from its fetched series. -/
theorem C5_theorem
    (fetch : List String → Except Unit (List (String × List Int)))
    (keywords : List String) (vals : String → List Int) (B : List String)
    (hN : keywords.Nodup)
    (hB : B ∈ chunked keywords 8)
    (hFail : fetch B = Except.error ())
    (hOk : ∀ b ∈ chunked keywords 8, b ≠ B →
      fetch b = Except.ok (b.map fun kw => (kw, vals kw))) :
    (chunked keywords 8).flatten = keywords ∧
    (∀ b ∈ chunked keywords 8, b ≠ [] ∧ b.length ≤ 8) ∧
    (build_last_hour_trends fetch keywords).Perm
      (keywords.map fun kw =>
        if kw ∈ B then (⟨kw, 0, 0, 0, 0, []⟩ : TrendItem)
        else mkItem kw (vals kw)) ∧
    (build_last_hour_trends fetch keywords).length = keywords.length ∧
    (∀ kw ∈ keywords, kw ∈ B →
      (⟨kw, 0, 0, 0, 0, []⟩ : TrendItem) ∈
        build_last_hour_trends fetch keywords) ∧
    (∀ kw ∈ keywords, kw ∉ B →
      mkItem kw (vals kw) ∈ build_last_hour_trends fetch keywords) := by
  have h8 : (8 : ℕ) = 7 + 1 := rfl
  have hflat : (chunked keywords 8).flatten = keywords := by
    rw [h8]; exact chunked_flatten 7 keywords
  have hbatch : ∀ b ∈ chunked keywords 8, b ≠ [] ∧ b.length ≤ 8 := by
    rw [h8]; exact chunked_batch_size 7 keywords
  have hNflat : (chunked keywords 8).flatten.Nodup := by rw [hflat]; exact hN
  have hfetch : ∀ b ∈ chunked keywords 8, fetch b =
      if decide (b = B) then Except.error ()
      else Except.ok (b.map fun kw => (kw, vals kw)) := by
    intro b hb
    by_cases hbB : b = B
    · subst hbB; simp [hFail]
    · simp [hbB, hOk b hb hbB]
  obtain ⟨hc1, _⟩ := collectFold_spec fetch vals (fun b => decide (b = B))
    (chunked keywords 8) [] hNflat hfetch (fun kw _ => rfl)
  have hmap : buildItems fetch keywords = keywords.map
      (fun kw => if kw ∈ B then (⟨kw, 0, 0, 0, 0, []⟩ : TrendItem)
        else mkItem kw (vals kw)) := by
    unfold buildItems collectBatches
    dsimp only
    apply List.map_congr_left
    intro kw hkw
    have hkwf : kw ∈ (chunked keywords 8).flatten := by
      rw [hflat]; exact hkw
    obtain ⟨b, hbmem, hkwb⟩ := List.mem_flatten.mp hkwf
    have hget := hc1 b hbmem kw hkwb
    by_cases hbB : b = B
    · subst hbB
      simp only [decide_eq_true_eq, if_pos rfl] at hget
      rw [hget]
      simp [mkItem, hkwb]
    · have hkB : kw ∉ B := by
        intro hkB
        exact mem_two_batches (chunked keywords 8) b B kw hbmem hB hbB
          hkwb hkB hNflat
      simp only [decide_eq_true_eq, if_neg hbB] at hget
      rw [hget]
      simp [hkB]
  have hperm : (build_last_hour_trends fetch keywords).Perm
      (keywords.map fun kw =>
        if kw ∈ B then (⟨kw, 0, 0, 0, 0, []⟩ : TrendItem)
        else mkItem kw (vals kw)) := by
    unfold build_last_hour_trends
    by_cases hkemp : keywords = []
    · subst hkemp
      simp
    · rw [if_neg hkemp, hmap]
      exact List.perm_insertionSort _ _
  refine ⟨hflat, hbatch, hperm, ?_, ?_, ?_⟩
  · rw [hperm.length_eq, List.length_map]
  · intro kw hkw hkB
    rw [hperm.mem_iff]
    have := List.mem_map_of_mem
      (fun kw => if kw ∈ B then (⟨kw, 0, 0, 0, 0, []⟩ : TrendItem)
        else mkItem kw (vals kw)) hkw
    simpa [hkB] using this
  · intro kw hkw hkB
    rw [hperm.mem_iff]
    have := List.mem_map_of_mem
      (fun kw => if kw ∈ B then (⟨kw, 0, 0, 0, 0, []⟩ : TrendItem)
        else mkItem kw (vals kw)) hkw
    simpa [hkB] using this

/-- C5 witness: the spec's 10-keyword scenario — batches of 8 and 2, first
batch failing — applied through the theorem. -/
theorem C5_witness :
    (build_last_hour_trends c5Fetch c5Keywords).length = c5Keywords.length ∧
    (⟨"a1", 0, 0, 0, 0, []⟩ : TrendItem) ∈
      build_last_hour_trends c5Fetch c5Keywords ∧
    mkItem "b1" (c5Vals "b1") ∈ build_last_hour_trends c5Fetch c5Keywords :=
  ⟨(C5_theorem c5Fetch c5Keywords c5Vals c5B (by decide) (by decide)
      (by simp [c5Fetch])
      (by intro b hb hne; simp [c5Fetch, hne])).2.2.2.1,
   (C5_theorem c5Fetch c5Keywords c5Vals c5B (by decide) (by decide)
      (by simp [c5Fetch])
      (by intro b hb hne; simp [c5Fetch, hne])).2.2.2.2.1 "a1" (by decide) (by decide),
   (C5_theorem c5Fetch c5Keywords c5Vals c5B (by decide) (by decide)
      (by simp [c5Fetch])
      (by intro b hb hne; simp [c5Fetch, hne])).2.2.2.2.2 "b1" (by decide) (by decide)⟩

/-! ## C7: numeric aggregates and final ordering -/

/-- C7: for a non-empty series, the item aggregates are exactly
`avg60m = round2(mean series)`, `avg20m = round2(mean (last 20 points, or
all when fewer))`, `delta20m = round2(mean tail − mean head)` (head = first
20 points, or all when fewer), `latestIndex` = the last point, the raw
points are kept; and the final list is sorted descending by `latestIndex`
with ties broken by descending `avg20m`, as a permutation of the unsorted
per-keyword items. -/
theorem C7_theorem :
    (∀ (kw : String) (series : List Int) (h : series ≠ []),
      mkItem kw series =
        { keyword := kw,
          latest_index := series.getLast h,
          avg_60m := round2 (listMean series),
          avg_20m := round2 (listMean (series.drop (series.length - 20))),
          delta_20m := round2 (listMean (series.drop (series.length - 20)) -
            listMean (series.take 20)),
          points := series }) ∧
    (∀ (fetch : List String → Except Unit (List (String × List Int)))
      (keywords : List String),
      List.Pairwise itemDescLe (build_last_hour_trends fetch keywords) ∧
      (build_last_hour_trends fetch keywords).Perm
        (buildItems fetch keywords)) := by
  constructor
  · intro kw series h
    unfold mkItem
    rw [if_neg h]
    dsimp only
    have htail : (if 20 ≤ series.length then series.drop (series.length - 20)
        else series) = series.drop (series.length - 20) := by
      split_ifs with h20
      · rfl
      · push_neg at h20
        rw [Nat.sub_eq_zero_of_le h20.le, List.drop_zero]
    have hhead : (if 20 ≤ series.length then series.take 20 else series) =
        series.take 20 := by
      split_ifs with h20
      · rfl
      · push_neg at h20
        rw [List.take_of_length_le h20.le]
    rw [htail, hhead, List.getLast?_eq_getLast series h]
    rfl
  · intro fetch keywords
    unfold build_last_hour_trends
    by_cases hk : keywords = []
    · simp [hk, buildItems, collectBatches, collectFold]
    · rw [if_neg hk]
      exact ⟨List.sorted_insertionSort itemDescLe _,
        List.perm_insertionSort itemDescLe _⟩

/-- C7 witness: the aggregate characterization applied to the concrete
series `[5, 3]`. -/
theorem C7_witness :
    mkItem "k" [5, 3] =
      { keyword := "k",
        latest_index := ([5, 3] : List Int).getLast (by decide),
        avg_60m := round2 (listMean [5, 3]),
        avg_20m := round2 (listMean (([5, 3] : List Int).drop
          (([5, 3] : List Int).length - 20))),
        delta_20m := round2 (listMean (([5, 3] : List Int).drop
          (([5, 3] : List Int).length - 20)) -
          listMean (([5, 3] : List Int).take 20)),
        points := [5, 3] } :=
  C7_theorem.1 "k" [5, 3] (by decide)

end TrendHunter
